import Mathlib

/-!
Verification development for the `llm-inline` skill runtime and session
context subsystem (`llmi.py`).  The Python source is shallowly embedded:
filesystem and network effects become explicit stores / environment
records, and each operation becomes a pure Lean function mirroring the
control flow of the corresponding Python function line by line.
-/

set_option autoImplicit false

/-! ### Session Context Manager (`ContextManager` in `llmi.py`) -/

/-- A chat message record `{role, content}` as stored in a session history
file. -/
structure Message where
  role : String
  content : String
deriving DecidableEq, Repr

/-- `m['role'] in ('user', 'assistant')` — the membership test used by
`ContextManager.save_history`. -/
def isUserOrAssistant (m : Message) : Bool :=
  m.role == "user" || m.role == "assistant"

/-- `self.max_history = 20` in `ContextManager.__init__`. -/
def max_history : Nat := 20

/-- The pure filter-and-truncate step of `ContextManager.save_history`:
`history_to_save = [m for m in messages if m['role'] in ('user','assistant')]`
followed by `history_to_save = history_to_save[-self.max_history:]` when the
length exceeds `max_history`. -/
def truncateHistory (messages : List Message) : List Message :=
  let history_to_save := messages.filter isUserOrAssistant
  if history_to_save.length > max_history then
    history_to_save.drop (history_to_save.length - max_history)
  else
    history_to_save

/-- Content of one session history file: either unparseable JSON
(`corrupt`) or a parsed JSON array of messages. -/
inductive SessionFile where
  | corrupt : SessionFile
  | content : List Message → SessionFile

/-- The session cache directory, one optional file per session id
(`none` = `self.history_file.exists()` is false). -/
def SessionStore : Type := String → Option SessionFile

/-- `ContextManager.load_history`: missing file ⇒ `[]`; `json.load` failure
⇒ `[]` (the `except Exception: return []` branch); otherwise the parsed
content is returned verbatim — no filtering, no truncation. -/
def load_history (store : SessionStore) (session_id : String) : List Message :=
  match store session_id with
  | none => []
  | some .corrupt => []
  | some (.content history) => history

/-- `ContextManager.save_history` with the file write succeeding: the
session's file is overwritten with the filtered and truncated list.  (A
failing write is swallowed by the source and leaves the store unchanged;
the round-trip claims concern the successful write.) -/
def save_history (store : SessionStore) (session_id : String)
    (messages : List Message) : SessionStore :=
  fun k => if k = session_id then some (.content (truncateHistory messages)) else store k

/-! ### Terminal-Trigger Classifier (inline in `main`, `llmi.py` 781–812) -/

/-- Boolean prefix test on character lists (Python `str.startswith` on the
remaining suffix, used to build the substring test). -/
def isPrefixB : List Char → List Char → Bool
  | [], _ => true
  | _ :: _, [] => false
  | a :: as, b :: bs => a == b && isPrefixB as bs

/-- Boolean substring test on character lists: Python `kw in s`. -/
def isSubstrB (kw : List Char) : List Char → Bool
  | [] => kw.isEmpty
  | s@(_ :: rest) => isPrefixB kw s || isSubstrB kw rest

/-- `user_input.lower()` — ASCII lowering, CJK characters unaffected. -/
def lowerChars (s : String) : List Char :=
  s.toList.map Char.toLower

/-- `error_keywords = ['报错', '错误', 'error', 'exception', 'fail', 'failed']` -/
def error_keywords : List String :=
  ["报错", "错误", "error", "exception", "fail", "failed"]

/-- `target_keywords = ['output', '输出', 'log', '日志', 'content', '内容']` -/
def target_keywords : List String :=
  ["output", "输出", "log", "日志", "content", "内容"]

/-- `position_keywords` list from `main`. -/
def position_keywords : List String :=
  ["上面", "above", "prev", "之前", "刚才", "刚刚", "last", "recent", "up", "previous", "这个"]

/-- `action_keywords` list from `main`. -/
def action_keywords : List String :=
  ["分析", "analyze", "check", "看", "解释", "explain", "fix", "solve", "解决", "什么意思", "mean"]

/-- The strong-trigger phrases of rule 3. -/
def strong_phrases : List String :=
  ["read terminal", "读取终端", "output above"]

/-- `any(k in user_input_lower for k in kws)`. -/
def anyKw (kws : List String) (lower : List Char) : Bool :=
  kws.any (fun k => isSubstrB k.toList lower)

/-- `has_error_kw = any(k in user_input_lower for k in error_keywords)`. -/
def hasErrorKw (s : String) : Bool := anyKw error_keywords (lowerChars s)

/-- `has_target_kw`. -/
def hasTargetKw (s : String) : Bool := anyKw target_keywords (lowerChars s)

/-- `has_pos_kw`. -/
def hasPosKw (s : String) : Bool := anyKw position_keywords (lowerChars s)

/-- `has_action_kw`. -/
def hasActionKw (s : String) : Bool := anyKw action_keywords (lowerChars s)

/-- `any(phrase in user_input_lower for phrase in [...])` — rule 3. -/
def hasStrongPhrase (s : String) : Bool := anyKw strong_phrases (lowerChars s)

/-- The capture decision of `main` (`llmi.py` 796–812): rule 1
(`has_error_kw and (has_action_kw or has_pos_kw)`), elif rule 2
(`has_pos_kw and has_target_kw`), elif rule 3 (strong phrase), else no
capture. -/
def shouldCapture (user_input : String) : Bool :=
  if hasErrorKw user_input && (hasActionKw user_input || hasPosKw user_input) then
    true
  else if hasPosKw user_input && hasTargetKw user_input then
    true
  else if hasStrongPhrase user_input then
    true
  else
    false

/-! ### Skill manifests and the Argument Preprocessor
(`preprocess_skill_args`, `llmi.py` 512–593) -/

/-- One entry of a manifest's `parameters` array.  Fields are optional
because the JSON object may omit them: `p.get('type')` returns `None`
when absent, while `param['name']` / `param['description']` raise
`KeyError`. -/
structure SkillParam where
  name : Option String
  description : Option String
  type : Option String
deriving DecidableEq, Repr

/-- A parsed `skill.json` manifest.  `name`/`description`/`version` are
required by the installer but a hand-written file may omit them, so they
are optional here; `field ∈ config` tests become `Option.isSome`. -/
structure SkillConfig where
  name : Option String
  description : Option String
  version : Option String
  handler : Option String
  parameters : Option (List SkillParam)
deriving Repr

/-- The FileContentRecord built by `preprocess_skill_args` (the
`file_info` dict of lines 575–581). -/
structure FileInfo where
  path : String
  name : String
  size : Nat
  content : String
  is_binary : Bool
deriving DecidableEq, Repr

/-- A positional skill argument: the raw path string, or the
FileContentRecord a file argument was replaced with. -/
inductive SkillArg where
  | str : String → SkillArg
  | file : FileInfo → SkillArg
deriving DecidableEq, Repr

/-- What the filesystem holds at a given raw argument path:
`absPath`/`fname` are the results of `Path(v).expanduser().resolve()` and
`.name`; `text = some t` means the UTF-8 read succeeds with text `t`,
`text = none` means it raises `UnicodeDecodeError`; `b64 = some b` means
the fallback binary read succeeds and base64-encodes to `b`, `b64 = none`
means even the binary read raises. -/
structure FileNode where
  absPath : String
  fname : String
  isFile : Bool
  size : Nat
  text : Option String
  b64 : Option String

/-- Filesystem view used by the preprocessor: `none` = the resolved path
does not exist. -/
def PreprocessFs : Type := String → Option FileNode

/-- `10 * 1024 * 1024` — the file-size ceiling of line 558. -/
def sizeLimit : Nat := 10 * 1024 * 1024

/-- The `for param in file_params:` loop of `preprocess_skill_args`
(lines 529–591).  `args` is the untouched input list (every iteration
reads `args[0]` and on error returns `args` itself); `processed` is the
`processed_args` accumulator.  `.error ()` models the uncaught `KeyError`
of `param['name']` (line 530, outside the inner `try`); the
`Path(dict)`-argument `TypeError` and every file error inside the inner
`try` produce `return args`. -/
def ppLoop (pfs : PreprocessFs) (args : List SkillArg) :
    List SkillParam → List SkillArg → Except Unit (List SkillArg)
  | [], processed => .ok processed
  | p :: rest, processed =>
    match p.name with
    | none => .error ()
    | some _ =>
      match args.head? with
      | none => ppLoop pfs args rest processed
      | some (.file _) => .ok args
      | some (.str s) =>
        if s = "" then ppLoop pfs args rest processed
        else
          match pfs s with
          | none => .ok args
          | some node =>
            if node.isFile = false then .ok args
            else if node.size > sizeLimit then .ok args
            else
              match node.text with
              | some t =>
                ppLoop pfs args rest
                  (processed.set 0 (.file ⟨node.absPath, node.fname, node.size, t, false⟩))
              | none =>
                match node.b64 with
                | some b =>
                  ppLoop pfs args rest
                    (processed.set 0 (.file ⟨node.absPath, node.fname, node.size, b, true⟩))
                | none => .ok args

/-- `file_params = [p for p in config['parameters'] if p.get('type') == 'file']`,
with a missing `parameters` key giving the empty list. -/
def fileParamsOf (config : SkillConfig) : List SkillParam :=
  match config.parameters with
  | none => []
  | some ps => ps.filter (fun p => p.type == some "file")

/-- `preprocess_skill_args(config, args)`: returns `args` unchanged when
the manifest declares no parameters or no `type: "file"` parameter,
otherwise runs the per-file-parameter loop starting from
`processed_args = args.copy()`.  `.error ()` is an exception escaping the
function (caught later by `execute_skill`'s outer handler). -/
def preprocess_skill_args (pfs : PreprocessFs) (config : SkillConfig)
    (args : List SkillArg) : Except Unit (List SkillArg) :=
  match config.parameters with
  | none => .ok args
  | some ps =>
    if (ps.filter (fun p => p.type == some "file")).isEmpty then .ok args
    else ppLoop pfs args (ps.filter (fun p => p.type == some "file")) args

/-! ### Skill Executor (`execute_skill`, `llmi.py` 447–509) -/

/-- Outcome of `__import__(module_name)` followed by the `main` lookup and
call, for given processed arguments: `ImportError`, module without a
`main` attribute, `main` raising, or `main` returning a `bool` /
non-`bool` value. -/
inductive ModuleLoad where
  | importError : ModuleLoad
  | noMain : ModuleLoad
  | mainRaises : ModuleLoad
  | mainReturnsBool : Bool → ModuleLoad
  | mainReturnsOther : ModuleLoad
deriving DecidableEq, Repr

/-- `get_skills_dir() / skill_name` — `~/.llm-inline/skills/<name>`. -/
def skillDirPath (skill_name : String) : String :=
  "~/.llm-inline/skills/" ++ skill_name

/-- Environment of one `execute_skill` call: `skills` is `load_skill`
(`none` = missing or malformed `skill.json`); `handlerFileExists` is
`handler_file.exists()` keyed by skill and handler name; `pfs` the
filesystem view seen by the preprocessor; `loadHandler` the behaviour of
the dynamic import and `main` call on the processed arguments. -/
structure ExecEnv where
  skills : String → Option SkillConfig
  handlerFileExists : String → String → Bool
  pfs : PreprocessFs
  loadHandler : List SkillArg → ModuleLoad

/-- The mutable interpreter state `execute_skill` touches: `sys.path`. -/
structure ExecState where
  sysPath : List String
deriving DecidableEq, Repr

/-- `sys.path.remove(x)` — deletes the first occurrence. -/
def removeFirst (x : String) : List String → List String
  | [] => []
  | y :: ys => if y = x then ys else y :: removeFirst x ys

/-- `execute_skill(skill_name, args)`: lookup via `load_skill`; with a
declared handler whose file exists, preprocess the arguments (an
exception escaping `preprocess_skill_args` is caught by the outer
`except` of line 507, before `sys.path` is touched), then
`sys.path.insert(0, str(skill_dir))`, import and run `main` with every
exception caught (`ImportError`/`Exception` handlers, lines 481–486), a
non-`bool` return coerced to `True`; the `finally` block removes the
directory from `sys.path` again.  Without a handler the manifest's
descriptive fields are printed — `skill['name']`/`'description'`/
`'version'` and each parameter's `name`/`description` raise `KeyError`
when absent, caught by the outer `except` giving `False`. -/
def execute_skill (env : ExecEnv) (st : ExecState) (skill_name : String)
    (args : List SkillArg) : Bool × ExecState :=
  match env.skills skill_name with
  | none => (false, st)
  | some config =>
    match config.handler with
    | some h =>
      if env.handlerFileExists skill_name h then
        match preprocess_skill_args env.pfs config args with
        | .error _ => (false, st)
        | .ok processed =>
          let dir := skillDirPath skill_name
          let path1 := dir :: st.sysPath
          let result : Bool :=
            match env.loadHandler processed with
            | .importError => false
            | .noMain => false
            | .mainRaises => false
            | .mainReturnsBool b => b
            | .mainReturnsOther => true
          let path2 := if path1.contains dir then removeFirst dir path1 else path1
          (result, ⟨path2⟩)
      else (false, st)
    | none =>
      if config.name.isSome && config.description.isSome && config.version.isSome then
        match config.parameters with
        | none => (true, st)
        | some ps =>
          if ps.all (fun p => p.name.isSome && p.description.isSome) then (true, st)
          else (false, st)
      else (false, st)

/-! ### Skill Installer (`install_skill_from_url`, `llmi.py` 357–444) -/

/-- The install source: `url.startswith('file://')` splits the two forms;
`filePath p` carries `url[7:]`, `http u` the full URL otherwise. -/
inductive Source where
  | filePath : String → Source
  | http : String → Source
deriving DecidableEq, Repr

/-- Split a character list at every `/` (the pieces of a POSIX path or
URL, like `str.split('/')`). -/
def splitSlash : List Char → List (List Char)
  | [] => [[]]
  | c :: cs =>
    match splitSlash cs with
    | [] => [[]]
    | piece :: pieces =>
      if c = '/' then [] :: piece :: pieces else (c :: piece) :: pieces

/-- Re-join path pieces with `/` (like `'/'.join`). -/
def joinSlash : List (List Char) → List Char
  | [] => []
  | [x] => x
  | x :: xs => x ++ '/' :: joinSlash xs

/-- `os.path.dirname` for the POSIX paths the installer builds: the text
before the last `/` (empty for a bare filename, `/` for a file at the
root). -/
def dirname (p : String) : String :=
  let parts := splitSlash p.toList
  if parts.length ≤ 1 then ""
  else
    let d := String.mk (joinSlash parts.dropLast)
    if d = "" then "/" else d

/-- `os.path.join(a, b)` restricted to the shapes the installer meets:
absolute `b` wins, empty `a` contributes nothing, otherwise a single `/`
separates. -/
def pathJoin (a b : String) : String :=
  if b.toList.head? = some '/' then b
  else if a = "" then b
  else if a.toList.getLast? = some '/' then a ++ b
  else a ++ "/" ++ b

/-- `url.rsplit('/', 1)[0]`: the URL up to (excluding) its last `/`, or
the whole URL when it has none. -/
def rsplitBase (u : String) : String :=
  let parts := splitSlash u.toList
  if parts.length ≤ 1 then u else String.mk (joinSlash parts.dropLast)

/-- Collaborators of one install: `localFs` maps an existing path to
`.ok content` (readable UTF-8 text) or `.error ()` (the read raises),
`none` meaning `os.path.exists` is false; `httpGet` is
`requests.get(·, timeout=30)` + `raise_for_status()` + `.text`; `parse`
is `json.loads` restricted to manifest objects (`none` =
`JSONDecodeError`). -/
structure InstallEnv where
  localFs : String → Option (Except Unit String)
  httpGet : String → Except Unit String
  parse : String → Option SkillConfig

/-- One installed skill directory: the manifest written to `skill.json`
plus the other files present (name ↦ content).  `mkdir(exist_ok=True)`
keeps the files of a previous install of the same name. -/
structure SkillDir where
  config : SkillConfig
  files : List (String × String)

/-- The skills root: skill name ↦ its directory, `none` = no directory. -/
def SkillStore : Type := String → Option SkillDir

/-- Associative update of a directory's file list (writing a file
overwrites an existing one of the same name). -/
def setFile (files : List (String × String)) (k v : String) : List (String × String) :=
  match files with
  | [] => [(k, v)]
  | (k₀, v₀) :: rest => if k₀ = k then (k, v) :: rest else (k₀, v₀) :: setFile rest k v

/-- Step 1 of the installer: fetch the manifest text.  For `file://`, a
missing path prints `❌` and returns `False`; a raising read is caught by
the outer `except`.  For http(s), any `requests` failure is likewise
caught by the outer `except`.  All three failure shapes collapse to
`none` = install failure with nothing written. -/
def fetchManifest (env : InstallEnv) (src : Source) : Option String :=
  match src with
  | .filePath p =>
    match env.localFs p with
    | none => none
    | some (.error _) => none
    | some (.ok c) => some c
  | .http u =>
    match env.httpGet u with
    | .error _ => none
    | .ok c => some c

/-- The handler location of step 6: for `file://` sources,
`os.path.join(os.path.dirname(url[7:]), config['handler'])`; for http(s),
`url.rsplit('/', 1)[0] + '/' + config['handler']`. -/
def handlerLocation (src : Source) (h : String) : String :=
  match src with
  | .filePath p => pathJoin (dirname p) h
  | .http u => rsplitBase u ++ "/" ++ h

/-- The files already present in a skill's directory before an install
over it (`mkdir(exist_ok=True)` keeps them; empty for a fresh name). -/
def existingFiles (st : SkillStore) (skill_name : String) : List (String × String) :=
  match st skill_name with
  | some d => d.files
  | none => []

/-- `install_skill_from_url(url)`: fetch (step 1), `json.loads` (2),
required-field loop over `name`/`description`/`version` (3) — each
failure returns `False` with the store untouched; then
`skill_dir.mkdir(parents=True, exist_ok=True)` (4) and the `skill.json`
write (5); then, when `handler` is declared (6): for a `file://` source a
missing handler file hits the explicit `return False` of line 419
(manifest already written), while a raising local read, a failed http
fetch, or a raising write/chmod is caught by the inner `except` of line
436 — a warning only, install still returns `True`. -/
def install_skill_from_url (env : InstallEnv) (st : SkillStore) (src : Source) :
    Bool × SkillStore :=
  match fetchManifest env src with
  | none => (false, st)
  | some content =>
    match env.parse content with
    | none => (false, st)
    | some config =>
      match config.name, config.description, config.version with
      | some skill_name, some _, some _ =>
        let st1 : SkillStore := fun k =>
          if k = skill_name then some ⟨config, existingFiles st skill_name⟩ else st k
        match config.handler with
        | none => (true, st1)
        | some h =>
          let writeHandler : String → SkillStore := fun hc k =>
            if k = skill_name then
              some ⟨config, setFile (existingFiles st skill_name) h hc⟩
            else st k
          match src with
          | .filePath _ =>
            match env.localFs (handlerLocation src h) with
            | none => (false, st1)
            | some (.error _) => (true, st1)
            | some (.ok hc) => (true, writeHandler hc)
          | .http _ =>
            match env.httpGet (handlerLocation src h) with
            | .error _ => (true, st1)
            | .ok hc => (true, writeHandler hc)
      | _, _, _ => (false, st)

/-! ### Helper lemmas -/

theorem truncateHistory_mem {l : List Message} {m : Message}
    (hm : m ∈ truncateHistory l) : isUserOrAssistant m = true := by
  unfold truncateHistory at hm
  simp only at hm
  split at hm
  · exact List.of_mem_filter (List.mem_of_mem_drop hm)
  · exact List.of_mem_filter hm

theorem truncateHistory_length_le (l : List Message) :
    (truncateHistory l).length ≤ max_history := by
  unfold truncateHistory
  simp only
  split
  · rename_i hlen
    rw [List.length_drop]
    omega
  · rename_i hlen
    omega

theorem truncateHistory_eq_self {l : List Message}
    (h1 : ∀ m ∈ l, isUserOrAssistant m = true) (h2 : l.length ≤ max_history) :
    truncateHistory l = l := by
  have hf : l.filter isUserOrAssistant = l := List.filter_eq_self.mpr h1
  unfold truncateHistory
  simp only [hf]
  rw [if_neg (by omega)]

/-! ### Claims about the Session Context Manager -/

/-- C3: for every session id and message list, `save_history` followed by
`load_history` returns exactly the last `min(20, count)` user/assistant
entries of the input, in original order, with system entries removed and
the surviving records unchanged. -/
theorem C3_history_round_trip (store : SessionStore) (sid : String)
    (msgs : List Message) :
    load_history (save_history store sid msgs) sid =
      (msgs.filter isUserOrAssistant).drop
        ((msgs.filter isUserOrAssistant).length -
          min max_history (msgs.filter isUserOrAssistant).length) := by
  have h1 : load_history (save_history store sid msgs) sid = truncateHistory msgs := by
    simp [load_history, save_history]
  rw [h1]
  unfold truncateHistory
  simp only
  split
  · rename_i hlen
    rw [Nat.min_eq_left (Nat.le_of_lt hlen)]
  · rename_i hlen
    rw [Nat.min_eq_right (Nat.le_of_not_lt (by omega)), Nat.sub_self, List.drop_zero]

/-- C7: the save-time filter-and-truncate step is idempotent — it is the
identity on any list of at most 20 user/assistant messages, and
`truncateHistory (truncateHistory l) = truncateHistory l` for every list. -/
theorem C7_truncate_idempotent :
    (∀ l : List Message, (∀ m ∈ l, isUserOrAssistant m = true) →
        l.length ≤ max_history → truncateHistory l = l) ∧
    (∀ l : List Message, truncateHistory (truncateHistory l) = truncateHistory l) := by
  constructor
  · intro l h1 h2
    exact truncateHistory_eq_self h1 h2
  · intro l
    exact truncateHistory_eq_self (fun m hm => truncateHistory_mem hm)
      (truncateHistory_length_le l)

/-- C7 witness: the filter-and-truncate step at a concrete short
user/assistant list. -/
theorem C7_truncate_idempotent_witness :
    truncateHistory [⟨"user", "hi"⟩, ⟨"assistant", "hello"⟩] =
      [⟨"user", "hi"⟩, ⟨"assistant", "hello"⟩] :=
  C7_truncate_idempotent.1 [⟨"user", "hi"⟩, ⟨"assistant", "hello"⟩]
    (by decide) (by decide)

/-- C10: `load_history` returns the session file's parsed content
verbatim — no role filtering, no truncation — so the 20-entry /
user-assistant-only invariants hold only for files written by
`save_history`. -/
theorem C10_load_verbatim (store : SessionStore) (sid : String)
    (msgs : List Message) (h : store sid = some (.content msgs)) :
    load_history store sid = msgs := by
  simp [load_history, h]

/-- A 30-entry session file containing system-role entries, as something
other than `save_history` could have written. -/
def oversizedSession : List Message :=
  List.replicate 25 ⟨"user", "u"⟩ ++ List.replicate 5 ⟨"system", "s"⟩

/-- The session store holding `oversizedSession` for every session id. -/
def oversizedStore : SessionStore := fun _ => some (.content oversizedSession)

/-- C10 witness: a 30-entry session file with system entries is returned
as-is. -/
theorem C10_load_verbatim_witness :
    load_history oversizedStore "sid" = oversizedSession ∧
      oversizedSession.length = 30 :=
  ⟨C10_load_verbatim oversizedStore "sid" oversizedSession rfl, by decide⟩

/-! ### Claim about the Terminal-Trigger Classifier -/

/-- C6: the capture decision is the first matching rule, in order:
error-keyword with action/position keyword; position with target keyword;
a literal strong-trigger phrase; otherwise no capture.  In particular the
three example questions classify as the spec states, matching
case-insensitively on substrings. -/
theorem C6_classifier :
    shouldCapture "帮我分析一下刚才的报错" = true ∧
    shouldCapture "今天天气怎么样" = false ∧
    shouldCapture "read terminal output" = true ∧
    ∀ s : String,
      shouldCapture s =
        ((hasErrorKw s && (hasActionKw s || hasPosKw s)) ||
          (hasPosKw s && hasTargetKw s) || hasStrongPhrase s) := by
  refine ⟨by decide, by decide, by decide, ?_⟩
  intro s
  unfold shouldCapture
  cases hasErrorKw s <;> cases hasActionKw s <;> cases hasPosKw s <;>
    cases hasTargetKw s <;> cases hasStrongPhrase s <;> simp

/-! ### Claims about the Argument Preprocessor -/

theorem ppLoop_ok_shape (pfs : PreprocessFs) (args : List SkillArg) :
    ∀ (fps : List SkillParam) (processed res : List SkillArg),
      (processed = args ∨ ∃ fi, processed = args.set 0 (.file fi)) →
      ppLoop pfs args fps processed = .ok res →
      res = args ∨ ∃ fi, res = args.set 0 (.file fi) := by
  intro fps
  induction fps with
  | nil =>
    intro processed res hinv h
    simp only [ppLoop] at h
    injection h with h
    exact h ▸ hinv
  | cons p rest ih =>
    intro processed res hinv h
    have hset : ∀ fi : FileInfo,
        processed.set 0 (SkillArg.file fi) = args.set 0 (SkillArg.file fi) := by
      intro fi
      rcases hinv with h1 | ⟨fi', h1⟩ <;> subst h1
      · rfl
      · rw [List.set_set]
    simp only [ppLoop] at h
    split at h
    · exact absurd h (by simp)
    · split at h
      · exact ih processed res hinv h
      · injection h with h
        exact Or.inl h.symm
      · split at h
        · exact ih processed res hinv h
        · split at h
          · injection h with h
            exact Or.inl h.symm
          · split at h
            · injection h with h
              exact Or.inl h.symm
            · split at h
              · injection h with h
                exact Or.inl h.symm
              · split at h
                · exact ih _ res (Or.inr ⟨_, hset _⟩) h
                · split at h
                  · exact ih _ res (Or.inr ⟨_, hset _⟩) h
                  · injection h with h
                    exact Or.inl h.symm

/-- C8: the preprocessor never touches the caller's argument list — with
no declared `type: "file"` parameter it returns the raw arguments
unchanged, and any non-raising run returns either the original list or a
fresh list that differs from it only at position 0, where a
FileContentRecord was substituted. -/
theorem C8_preprocess_frame :
    (∀ (pfs : PreprocessFs) (config : SkillConfig) (args : List SkillArg),
        fileParamsOf config = [] →
        preprocess_skill_args pfs config args = .ok args) ∧
    (∀ (pfs : PreprocessFs) (config : SkillConfig) (args res : List SkillArg),
        preprocess_skill_args pfs config args = .ok res →
        res = args ∨ ∃ fi, res = args.set 0 (.file fi)) := by
  constructor
  · intro pfs config args hnone
    unfold preprocess_skill_args
    unfold fileParamsOf at hnone
    cases hps : config.parameters with
    | none => rfl
    | some ps =>
      have hfil : ps.filter (fun p => p.type == some "file") = [] := by
        rw [hps] at hnone
        exact hnone
      simp [hfil]
  · intro pfs config args res h
    unfold preprocess_skill_args at h
    split at h
    · injection h with h
      exact Or.inl h.symm
    · split at h
      · injection h with h
        exact Or.inl h.symm
      · exact ppLoop_ok_shape pfs args _ args res (Or.inl rfl) h

/-- A manifest whose single parameter is not of type `file`. -/
def cfgNoFileParam : SkillConfig :=
  ⟨some "ask", some "d", some "1", none, some [⟨some "q", some "question", some "string"⟩]⟩

/-- C8 witness: with no file parameter the raw arguments come back
unchanged. -/
theorem C8_preprocess_frame_witness :
    preprocess_skill_args (fun _ => none) cfgNoFileParam [SkillArg.str "x"] =
      .ok [SkillArg.str "x"] :=
  C8_preprocess_frame.1 (fun _ => none) cfgNoFileParam [SkillArg.str "x"] rfl

/-- C5: for a manifest declaring one file parameter and a non-empty first
positional argument — if the path resolves to an existing regular file of
at most 10 MiB whose UTF-8 read succeeds, argument 0 is replaced by a
record carrying the file's exact text, its byte size and
`is_binary = false`; if the path does not exist, is not a file, or
exceeds 10 MiB, the original argument list comes back unchanged
(fail-open). -/
theorem C5_preprocess_file_param (pfs : PreprocessFs) (config : SkillConfig)
    (ps : List SkillParam) (p : SkillParam) (s : String) (rest : List SkillArg)
    (hps : config.parameters = some ps)
    (hfp : ps.filter (fun q => q.type == some "file") = [p])
    (hname : p.name.isSome = true)
    (hs : s ≠ "") :
    (∀ (node : FileNode) (t : String),
        pfs s = some node → node.isFile = true → node.size ≤ sizeLimit →
        node.text = some t →
        preprocess_skill_args pfs config (.str s :: rest) =
          .ok (.file ⟨node.absPath, node.fname, node.size, t, false⟩ :: rest)) ∧
    (pfs s = none →
        preprocess_skill_args pfs config (.str s :: rest) = .ok (.str s :: rest)) ∧
    (∀ node : FileNode, pfs s = some node → node.isFile = false →
        preprocess_skill_args pfs config (.str s :: rest) = .ok (.str s :: rest)) ∧
    (∀ node : FileNode, pfs s = some node → node.size > sizeLimit →
        preprocess_skill_args pfs config (.str s :: rest) = .ok (.str s :: rest)) := by
  obtain ⟨nm, hnm⟩ := Option.isSome_iff_exists.mp hname
  have hpre : preprocess_skill_args pfs config (SkillArg.str s :: rest) =
      ppLoop pfs (SkillArg.str s :: rest) [p] (SkillArg.str s :: rest) := by
    unfold preprocess_skill_args
    rw [hps]
    simp [hfp]
  refine ⟨?_, ?_, ?_, ?_⟩
  · intro node t hnode hfile hsize htext
    rw [hpre]
    simp only [ppLoop, hnm, List.head?_cons, hnode, hfile, htext]
    rw [if_neg hs, if_neg (by omega : ¬ node.size > sizeLimit)]
    simp [ppLoop]
  · intro hnode
    rw [hpre]
    simp only [ppLoop, hnm, List.head?_cons, hnode]
    rw [if_neg hs]
  · intro node hnode hfile
    rw [hpre]
    simp only [ppLoop, hnm, List.head?_cons, hnode, hfile]
    rw [if_neg hs]
    simp
  · intro node hnode hsize
    rw [hpre]
    simp only [ppLoop, hnm, List.head?_cons, hnode]
    rw [if_neg hs]
    cases hfile : node.isFile with
    | false => simp [hfile]
    | true => simp [hfile, hsize]

/-- A 5-byte UTF-8 text file at `f.txt`. -/
def fileNodeEx : FileNode := ⟨"/tmp/f.txt", "f.txt", true, 5, some "hello", none⟩

/-- A filesystem view containing exactly `f.txt`. -/
def pfsEx : PreprocessFs := fun q => if q = "f.txt" then some fileNodeEx else none

/-- A manifest declaring one `type: "file"` parameter (the `translate`
skill shape). -/
def cfgFileParam : SkillConfig :=
  ⟨some "translate", some "d", some "1", some "translate.py",
    some [⟨some "file", some "file to translate", some "file"⟩]⟩

/-- C5 witness: the 5-byte text file is materialized into argument 0, and
a nonexistent path leaves the arguments unchanged. -/
theorem C5_preprocess_file_param_witness :
    preprocess_skill_args pfsEx cfgFileParam [SkillArg.str "f.txt"] =
      .ok [SkillArg.file ⟨"/tmp/f.txt", "f.txt", 5, "hello", false⟩] ∧
    preprocess_skill_args pfsEx cfgFileParam [SkillArg.str "missing.txt"] =
      .ok [SkillArg.str "missing.txt"] := by
  constructor
  · exact (C5_preprocess_file_param pfsEx cfgFileParam _ _ "f.txt" [] rfl rfl rfl
      (by decide)).1 fileNodeEx "hello" rfl rfl (by decide) rfl
  · exact (C5_preprocess_file_param pfsEx cfgFileParam _ _ "missing.txt" [] rfl rfl rfl
      (by decide)).2.1 rfl

/-! ### Claims about the Skill Executor -/

/-- C4: with the skill installed, a handler declared and its file
present, an `ImportError` while loading the handler module or any
exception raised by its `main` is caught at the executor boundary:
`execute_skill` returns failure instead of propagating. -/
theorem C4_execute_catches (env : ExecEnv) (st : ExecState) (n : String)
    (args : List SkillArg) (config : SkillConfig) (h : String)
    (processed : List SkillArg)
    (hc : env.skills n = some config)
    (hh : config.handler = some h)
    (hex : env.handlerFileExists n h = true)
    (hp : preprocess_skill_args env.pfs config args = .ok processed)
    (hload : env.loadHandler processed = .importError ∨
      env.loadHandler processed = .mainRaises) :
    (execute_skill env st n args).1 = false := by
  simp only [execute_skill, hc, hh, hex, if_true, hp]
  rcases hload with h1 | h1 <;> simp [h1]

/-- A manifest with a handler and no parameters. -/
def cfgHandlerEx : SkillConfig := ⟨some "t", some "d", some "1", some "t.py", none⟩

/-- An executor environment in which `t` is installed, its handler file
exists, and running `main` raises. -/
def execEnvEx : ExecEnv :=
  ⟨fun q => if q = "t" then some cfgHandlerEx else none,
    fun _ _ => true, fun _ => none, fun _ => .mainRaises⟩

/-- C4 witness: the raising handler makes `execute_skill` return
failure. -/
theorem C4_execute_catches_witness :
    (execute_skill execEnvEx ⟨[]⟩ "t" []).1 = false :=
  C4_execute_catches execEnvEx ⟨[]⟩ "t" [] cfgHandlerEx "t.py" [] rfl rfl rfl rfl
    (Or.inr rfl)

/-- C9: `execute_skill` restores `sys.path` along every control path —
the skill directory inserted at position 0 before the dynamic import is
removed again by the `finally` block whether `main` returns, the import
fails, or an exception is raised, so the final lookup path equals the
initial one (and in particular no longer contains the entry that was
added). -/
theorem C9_syspath_restored (env : ExecEnv) (st : ExecState) (n : String)
    (args : List SkillArg) :
    (execute_skill env st n args).2.sysPath = st.sysPath := by
  have hrm : ∀ (d : String) (l : List String), removeFirst d (d :: l) = l := by
    intro d l
    simp [removeFirst]
  unfold execute_skill
  split
  · rfl
  · split
    · split
      · split
        · rfl
        · simp [hrm]
      · rfl
    · split
      · split
        · rfl
        · split <;> rfl
      · rfl

/-! ### Claims about the Skill Installer -/

/-- C2: a manifest that fetches and parses but lacks any of the required
fields `name`, `description`, `version` makes the install fail with the
skills root left exactly as it was — no directory is created and nothing
is written. -/
theorem C2_reject_missing_fields (env : InstallEnv) (st : SkillStore) (src : Source)
    (content : String) (config : SkillConfig)
    (hf : fetchManifest env src = some content)
    (hp : env.parse content = some config)
    (hmiss : config.name = none ∨ config.description = none ∨ config.version = none) :
    install_skill_from_url env st src = (false, st) := by
  simp only [install_skill_from_url, hf, hp]
  rcases hmiss with h | h | h
  · simp [h]
  · cases hn : config.name <;> simp [h]
  · cases hn : config.name <;> cases hd : config.description <;> simp [h]

/-- A parsed manifest missing the required `version` field. -/
def cfgMissingVersion : SkillConfig := ⟨some "t", some "d", none, none, none⟩

/-- An install environment whose local manifest parses to
`cfgMissingVersion`. -/
def instEnvMissing : InstallEnv :=
  ⟨fun p => if p = "/s/skill.json" then some (.ok "manifest-noversion") else none,
    fun _ => .error (),
    fun c => if c = "manifest-noversion" then some cfgMissingVersion else none⟩

/-- The empty skills root. -/
def store0 : SkillStore := fun _ => none

/-- C2 witness: installing the version-less manifest fails and leaves the
empty skills root untouched. -/
theorem C2_reject_missing_fields_witness :
    install_skill_from_url instEnvMissing store0 (.filePath "/s/skill.json") =
      (false, store0) :=
  C2_reject_missing_fields instEnvMissing store0 (.filePath "/s/skill.json")
    "manifest-noversion" cfgMissingVersion rfl rfl (Or.inr (Or.inr rfl))

/-- A valid manifest (`a`) declaring the handler asset `h.py`. -/
def cfgWithHandler : SkillConfig := ⟨some "a", some "d", some "1", some "h.py", none⟩

/-- An install environment holding the local manifest
`/skills/a.json` (which parses to `cfgWithHandler`) but **not** the
declared handler file `/skills/h.py`. -/
def instEnvNoHandlerFile : InstallEnv :=
  ⟨fun p => if p = "/skills/a.json" then some (.ok "manifest-a") else none,
    fun _ => .error (),
    fun c => if c = "manifest-a" then some cfgWithHandler else none⟩

/-- C1 counterexample: a file-path install whose manifest fetch, parse
and validation all succeed (steps 1–5) and whose declared handler file is
missing returns **failure**, not the warning-plus-success the claim
states for file-path handler sources (`llmi.py` line 419 `return False`) —
even though the manifest has already been written into the skill
directory. -/
theorem C1_counterexample :
    fetchManifest instEnvNoHandlerFile (.filePath "/skills/a.json") = some "manifest-a" ∧
    instEnvNoHandlerFile.parse "manifest-a" = some cfgWithHandler ∧
    cfgWithHandler.name = some "a" ∧
    cfgWithHandler.description = some "d" ∧
    cfgWithHandler.version = some "1" ∧
    cfgWithHandler.handler = some "h.py" ∧
    instEnvNoHandlerFile.localFs
      (handlerLocation (.filePath "/skills/a.json") "h.py") = none ∧
    (install_skill_from_url instEnvNoHandlerFile store0 (.filePath "/skills/a.json")).1
      = false ∧
    ((install_skill_from_url instEnvNoHandlerFile store0
        (.filePath "/skills/a.json")).2 "a").isSome = true := by
  exact ⟨rfl, rfl, rfl, rfl, rfl, rfl, rfl, rfl, rfl⟩

/-- C1 (amended): once steps 1–5 succeed for a manifest declaring a
handler, a failure to fetch or write the handler asset only produces a
warning — install returns success with the manifest installed — for
http(s) handler sources and for file-path handler sources whose handler
file exists but cannot be read; for a file-path handler source whose
handler file does **not** exist, install returns failure, although the
manifest has already been written into the skill directory. -/
theorem C1_handler_failure_policy (env : InstallEnv) (st : SkillStore) (src : Source)
    (content : String) (config : SkillConfig) (skill_name d v h : String)
    (hf : fetchManifest env src = some content)
    (hp : env.parse content = some config)
    (hn : config.name = some skill_name)
    (hd : config.description = some d)
    (hv : config.version = some v)
    (hh : config.handler = some h) :
    (∀ u, src = .http u → env.httpGet (handlerLocation src h) = .error () →
        (install_skill_from_url env st src).1 = true ∧
        ∃ sd, (install_skill_from_url env st src).2 skill_name = some sd ∧
          sd.config = config) ∧
    (∀ p, src = .filePath p →
        env.localFs (handlerLocation src h) = some (.error ()) →
        (install_skill_from_url env st src).1 = true ∧
        ∃ sd, (install_skill_from_url env st src).2 skill_name = some sd ∧
          sd.config = config) ∧
    (∀ p, src = .filePath p → env.localFs (handlerLocation src h) = none →
        (install_skill_from_url env st src).1 = false ∧
        ∃ sd, (install_skill_from_url env st src).2 skill_name = some sd ∧
          sd.config = config) := by
  refine ⟨?_, ?_, ?_⟩
  · intro u hsrc hget
    subst hsrc
    simp only [install_skill_from_url, hf, hp, hn, hd, hv, hh, hget]
    exact ⟨by simp, ⟨config, existingFiles st skill_name⟩, by simp, rfl⟩
  · intro p hsrc hget
    subst hsrc
    simp only [install_skill_from_url, hf, hp, hn, hd, hv, hh, hget]
    exact ⟨by simp, ⟨config, existingFiles st skill_name⟩, by simp, rfl⟩
  · intro p hsrc hget
    subst hsrc
    simp only [install_skill_from_url, hf, hp, hn, hd, hv, hh, hget]
    exact ⟨by simp, ⟨config, existingFiles st skill_name⟩, by simp, rfl⟩

/-- An install environment serving the manifest at
`http://x/skill.json` while every other fetch (in particular the handler
at `http://x/h.py`) fails. -/
def instEnvHttp : InstallEnv :=
  ⟨fun _ => none,
    fun u => if u = "http://x/skill.json" then .ok "manifest-a" else .error (),
    fun c => if c = "manifest-a" then some cfgWithHandler else none⟩

/-- C1 witness: for the http source with an unreachable handler asset the
amended claim holds — install succeeds and the manifest is installed. -/
theorem C1_handler_failure_policy_witness :
    (install_skill_from_url instEnvHttp store0 (.http "http://x/skill.json")).1 = true ∧
    ∃ sd, (install_skill_from_url instEnvHttp store0
        (.http "http://x/skill.json")).2 "a" = some sd ∧
      sd.config = cfgWithHandler :=
  (C1_handler_failure_policy instEnvHttp store0 (.http "http://x/skill.json")
      "manifest-a" cfgWithHandler "a" "d" "1" "h.py"
      rfl rfl rfl rfl rfl rfl).1 "http://x/skill.json" rfl rfl
